import Mathlib

/-!
# PrismaAssistant — verification of the retrieval / dedup / screening core

Shallow embedding of the algorithmic core of the PrismaAssistant repository
(`modules/deduplication.py`, `modules/screening.py`, `modules/filters.py`,
`modules/search_engine.py`) together with proofs and refutations of the
spec's testable properties.

Article records are Python dicts in the source; we model them as a structure
carrying exactly the fields the core reads or writes.  External services
(the sentence-embedding model, the bibliographic APIs, PDF fetching) are
modelled as oracle parameters: the embedding model is a function from text
to a rational vector (`none` models an encoding exception), and each source
adapter's outcome is an `Except` value (`.error` models a raised exception
or timeout, caught by the orchestrator's per-future `try/except`).

Python string primitives (`str.strip`, `str.lower`, `in`, slicing, `join`)
are re-implemented over `List Char` so that all definitions evaluate inside
the kernel; they agree with Python on the ASCII data handled here.
-/

set_option allowUnsafeReducibility true

attribute [local semireducible] Rat.mul Rat.add Rat.inv Rat.sub Rat.div Rat.neg

/-- Python `str.lower()` (ASCII case folding, as in all titles handled here). -/
def pyLower (s : String) : String := ⟨s.data.map Char.toLower⟩

/-- Python `str.strip()`: drop leading and trailing whitespace. -/
def pyStrip (s : String) : String :=
  ⟨((s.data.dropWhile Char.isWhitespace).reverse.dropWhile Char.isWhitespace).reverse⟩

/-- Python slicing `s[:n]` (by code points). -/
def pyTake (s : String) (n : Nat) : String := ⟨s.data.take n⟩

/-- Python `sep.join(parts)`. -/
def pyJoin (sep : String) (parts : List String) : String :=
  ⟨((parts.map String.data).intersperse sep.data).flatten⟩

/-- Python `needle in hay` substring test. -/
def pyContains (hay needle : String) : Bool :=
  hay.data.tails.any (fun t => needle.data.isPrefixOf t)

/-- Python `s.startswith(pre)`. -/
def pyStartsWith (s pre : String) : Bool := pre.data.isPrefixOf s.data

/-- Python `int(x)` on a rational: truncation toward zero. -/
def pyInt (q : ℚ) : ℤ := if 0 ≤ q then ⌊q⌋ else ⌈q⌉

/-- Python `round(x)` to an integer: round half to even (banker's rounding). -/
def pyRound (x : ℚ) : ℤ :=
  let f := ⌊x⌋
  let r := x - f
  if r < 1/2 then f
  else if 1/2 < r then f + 1
  else if f % 2 = 0 then f else f + 1

/-- Python `round(x, 3)` as used for the stored similarity value. -/
def round3 (q : ℚ) : ℚ := (pyRound (q * 1000) : ℚ) / 1000

/-- Model of the article dict flowing through the pipeline.  Fields the core
never touches are omitted; optional dict keys become `Option`. -/
structure Article where
  title : String
  authors : List String
  year : Option Int
  doi : Option String
  abstract : String
  full_text : String
  journal : String
  url : String
  pdf_url : String
  source : String
  isOpenAccess : Bool
  similarity : Option ℚ
  relevance : Option String
  excluded_reason : Option String
  removal_reason : Option String
  text_source : Option String
deriving DecidableEq

/-- A fresh article with only a title, every other field empty/absent —
the shape a dict has before any stage annotates it. -/
def mkArticle (title : String) : Article :=
  ⟨title, [], none, none, "", "", "", "", "", "", false, none, none, none, none, none⟩

/-- Python truthiness of an optional string (`if doi:`):
`None` and `""` are falsy. -/
def strTruthy : Option String → Bool
  | none => false
  | some s => s ≠ ""

/-- `not doi or not doi.strip()`: the DOI is absent, empty, or whitespace. -/
def doiBlank : Option String → Bool
  | none => true
  | some s => pyStrip s = ""

/-- The raw string under an optional DOI (only consulted when truthy). -/
def doiVal (d : Option String) : String := d.getD ""

/-- `a["removal_reason"] = reason` before moving a dict to the removed list. -/
def markRemoved (reason : String) (a : Article) : Article :=
  { a with removal_reason := some reason }

/-- The `(title.strip().lower(), year)` key of `remove_exact_duplicates`. -/
def tyKey (a : Article) : String × Option Int :=
  (pyLower (pyStrip a.title), a.year)

/-- Loop of `remove_exact_duplicates` (deduplication.py:22-44), with the
`seen_doi` / `seen_title_year` sets made explicit.  Mirrors the source:
a DOI hit is removed; a title+year hit is removed only when the DOI is
absent or blank; survivors are appended unchanged and update the seen sets. -/
def removeExactAux (sd : List String) (sty : List (String × Option Int)) :
    List Article → List Article × List Article
  | [] => ([], [])
  | a :: rest =>
    if strTruthy a.doi ∧ doiVal a.doi ∈ sd then
      let p := removeExactAux sd sty rest
      (p.1, markRemoved "Duplicado Exacto (DOI)" a :: p.2)
    else if (tyKey a).1 ≠ "" ∧ tyKey a ∈ sty ∧ doiBlank a.doi then
      let p := removeExactAux sd sty rest
      (p.1, markRemoved "Duplicado Exacto (Título + Año)" a :: p.2)
    else
      let sd' := if strTruthy a.doi then doiVal a.doi :: sd else sd
      let sty' := if (tyKey a).1 ≠ "" then tyKey a :: sty else sty
      let p := removeExactAux sd' sty' rest
      (a :: p.1, p.2)

/-- `remove_exact_duplicates(articles)` (deduplication.py:12-46):
returns `(unique, removed)`. -/
def remove_exact_duplicates (articles : List Article) :
    List Article × List Article :=
  removeExactAux [] [] articles

/-- Dot product of two embedding vectors (`torch` tensors in the source). -/
def dot (v w : List ℚ) : ℚ := (List.zipWith (fun a b => a * b) v w).sum

/-- Squared Euclidean norm of an embedding vector. -/
def normSq (v : List ℚ) : ℚ := dot v v

/-- `util.cos_sim(v, w) > t`, written without square roots:
`cos = dot / (‖v‖·‖w‖)`, so for `t ≥ 0` the comparison is
`dot > 0 ∧ t² · ‖v‖² · ‖w‖² < dot²`, and for `t < 0` it is
`0 ≤ dot ∨ dot² < t² · ‖v‖² · ‖w‖²`.  (For a zero vector the source would
produce NaN; this encoding then answers `t < 0`, a case no theorem relies
on.) -/
def cosGT (t : ℚ) (v w : List ℚ) : Bool :=
  let d := dot v w
  let p := normSq v * normSq w
  if 0 ≤ t then decide (0 < d ∧ t ^ 2 * p < d ^ 2)
  else decide (0 ≤ d ∨ d ^ 2 < t ^ 2 * p)

/-- `cosine_scores.max() > similarity_threshold` over the running list of
embeddings already accepted by the semantic pass (deduplication.py:71-83):
the maximum exceeds the threshold iff some score does. -/
def semIsDup (t : ℚ) (seen : List (List ℚ)) (emb : List ℚ) : Bool :=
  seen.any (fun e => cosGT t emb e)

/-- The reason string attached to a semantic duplicate
(`f"Duplicado Semántico (> {similarity_threshold})"`). -/
def semReason (t : ℚ) : String :=
  "Duplicado Semántico (> " ++ toString t ++ ")"

/-- Loop of `remove_semantic_duplicates` (deduplication.py:51-93) with the
running embedding list explicit and the sentence-transformer model as the
oracle `enc`.  An article whose `title + " " + abstract` strips to empty is
kept without encoding; otherwise it is rejected when its cosine similarity
to some already-kept embedding exceeds the threshold, else kept and its
embedding appended. -/
def removeSemanticAux (enc : String → List ℚ) (t : ℚ) (seen : List (List ℚ)) :
    List Article → List Article × List Article
  | [] => ([], [])
  | a :: rest =>
    let text := a.title ++ " " ++ a.abstract
    if pyStrip text = "" then
      let p := removeSemanticAux enc t seen rest
      (a :: p.1, p.2)
    else
      let emb := enc text
      if semIsDup t seen emb then
        let p := removeSemanticAux enc t seen rest
        (p.1, markRemoved (semReason t) a :: p.2)
      else
        let p := removeSemanticAux enc t (seen ++ [emb]) rest
        (a :: p.1, p.2)

/-- `remove_semantic_duplicates(articles, similarity_threshold)`
(deduplication.py:51-93). -/
def remove_semantic_duplicates (enc : String → List ℚ) (t : ℚ)
    (articles : List Article) : List Article × List Article :=
  removeSemanticAux enc t [] articles

/-- `is_open_access(article)` (filters.py:95-126): explicit flag, then URL
indicators, then known open-access DOI prefixes. -/
def is_open_access (a : Article) : Bool :=
  if a.isOpenAccess then true
  else
    let url := pyLower a.url
    let indicators := ["open", "arxiv", "plos", "biorxiv", "medrxiv", "ssrn",
      "researchgate"]
    if indicators.any (fun i => pyContains url i) then true
    else
      let doi := pyLower (doiVal a.doi)
      let prefixes := ["10.1371", "10.3389", "10.1186", "10.1038", "10.7554"]
      prefixes.any (fun p => pyStartsWith doi p)

/-- Keyword lists of `detect_language` (filters.py:144-147). -/
def languageWords : List (String × List String) :=
  [("en", ["the", "and", "of", "in", "to", "with", "for", "this", "that", "was"]),
   ("es", ["de", "la", "el", "en", "los", "las", "con", "por", "para", "que"]),
   ("pt", ["da", "do", "em", "para", "com", "uma", "dos", "das", "pela", "pelo"]),
   ("fr", ["le", "de", "et", "la", "un", "une", "des", "les", "dans", "pour"])]

/-- Number of keyword hits for one language: `f" {word} " in text`. -/
def langHits (text : String) (words : List String) : Nat :=
  (words.filter (fun w => pyContains text (" " ++ w ++ " "))).length

/-- `detect_language(article)` (filters.py:129-169): keyword-count heuristic
over lowercased `title + " " + abstract`; Python's `max(counts, key=...)`
returns the first language reaching the maximal count, and at least 3 hits
are required. -/
def detect_language (a : Article) : Option String :=
  let text := pyLower a.title ++ " " ++ pyLower a.abstract
  if pyStrip text = "" then none
  else
    let counts := languageWords.map (fun p => (p.1, langHits text p.2))
    let best := counts.foldl
      (fun acc p => if p.2 > acc.2 then p else acc) ("en", langHits text
        (["the", "and", "of", "in", "to", "with", "for", "this", "that", "was"]))
    if 3 ≤ best.2 then some best.1 else none

/-- `(a.get("year") or 0)`: missing year counts as 0. -/
def yearOr0 (a : Article) : Int := a.year.getD 0

/-- Python truthiness of the optional int arguments of `apply_filters`. -/
def intTruthy : Option Int → Bool
  | none => false
  | some y => y ≠ 0

/-- `apply_filters` (filters.py:6-92): sequential, independently optional
exclusion predicates; `doc_type` and `quartiles` are accepted but disabled
in the source. -/
def apply_filters (articles : List Article) (start_year end_year : Option Int)
    (doc_type : Option String) (open_access : Bool) (language : Option String)
    (journals : Option (List String)) (quartiles : Option (List String)) :
    List Article :=
  let f1 := if intTruthy start_year then
      articles.filter (fun a => decide (start_year.getD 0 ≤ yearOr0 a))
    else articles
  let f2 := if intTruthy end_year then
      f1.filter (fun a => decide (yearOr0 a ≤ end_year.getD 0))
    else f1
  let f3 := match journals with
    | some js => if js.length > 0 then
        f2.filter (fun a => decide (pyStrip a.journal ∈ js)) else f2
    | none => f2
  let f4 := if open_access then f3.filter is_open_access else f3
  let f5 := match language with
    | some lang => f4.filter (fun a => decide (detect_language a = some lang))
    | none => f4
  let _ := doc_type
  let _ := quartiles
  f5

/-- Identity key of the merge-dedup step inside `search_articles`
(search_engine.py:296-304): the lowercased stripped DOI when its length
exceeds 5, else the lowercased alphanumeric-only title fingerprint
truncated to 60 characters. -/
def mergeKey (a : Article) : String :=
  let doi := pyStrip (pyLower (doiVal a.doi))
  let titleKey : String := ⟨((pyLower a.title).data.filter Char.isAlphanum).take 60⟩
  if doi.length > 5 then doi else titleKey

/-- The first-occurrence-wins merge over a completed result list
(`unique` dict of search_engine.py:296-304); records whose key is empty
are dropped. -/
def mergeDedupSearch : List Article → List Article :=
  go []
where
  go (seen : List String) : List Article → List Article
    | [] => []
    | a :: rest =>
      let k := mergeKey a
      if k ≠ "" ∧ k ∉ seen then a :: go (k :: seen) rest
      else go seen rest

/-- Gathering of completed adapter futures (search_engine.py:289-293):
each `f.result()` sits in a `try/except`, so a raised/timed-out adapter
(`.error`) contributes nothing while the rest are extended in completion
order. -/
def collectResults : List (Except Unit (List Article)) → List Article
  | [] => []
  | Except.ok l :: rest => l ++ collectResults rest
  | Except.error _ :: rest => collectResults rest

/-- Modelled from the spec: `enrich_initial_search_result` is imported and
called by `search_articles` (search_engine.py:9,313) but its definition is
absent from the sources.  Per spec §4.3 step 4, enrichment fetches and
extracts text for records that have a `pdf_url` but no `full_text`
(the `fetched` oracle gives the outcome of that download) and failures are
non-fatal, leaving the record otherwise unchanged. -/
def enrich_initial_search_result (fetched : Article → Option String)
    (a : Article) : Article :=
  if a.full_text ≠ "" then a
  else if a.pdf_url = "" then a
  else match fetched a with
    | some t => { a with full_text := t }
    | none => a

/-- `search_articles(query_terms, max_results)` (search_engine.py:273-316):
fan-out to the three adapters (their outcomes, in completion order, are the
`outcomes` argument), per-future exception capture, first-occurrence-wins
identity merge, cap at `max_results`, then lazy PDF enrichment of every
survivor.  The elapsed-time component of the Python return value is
wall-clock I/O and is not modelled. -/
def search_articles (fetched : Article → Option String) (maxResults : Nat)
    (outcomes : List (Except Unit (List Article))) : List Article :=
  let all := collectResults outcomes
  let unique := mergeDedupSearch all
  let final := if unique.length > maxResults then unique.take maxResults
    else unique
  final.map (enrich_initial_search_result fetched)

/-- `get_embedding(text)` (screening.py:11-19): `None` on empty/whitespace
text, else the model's output (`none` models an encoding exception). -/
def get_embedding (enc : String → Option (List ℚ)) (text : String) :
    Option (List ℚ) :=
  if pyStrip text = "" then none else enc text

/-- Text basis for one article (screening.py:54-69): `full_text`
(capped at 15000 characters) over `abstract` over bare `title`. -/
def articleText (a : Article) : String :=
  if a.full_text ≠ "" then a.title ++ " " ++ pyTake a.full_text 15000
  else if a.abstract ≠ "" then a.title ++ " " ++ a.abstract
  else a.title

/-- Matching `text_source` tag (screening.py:60-69). -/
def textSource (a : Article) : String :=
  if a.full_text ≠ "" then "PDF"
  else if a.abstract ≠ "" then "Abstract"
  else "Title only"

/-- `text.strip()` non-empty: the article enters the batch (screening.py:71). -/
def hasValidText (a : Article) : Bool := pyStrip (articleText a) != ""

/-- The articles that enter the embedding batch, in input order. -/
def validArticles (articles : List Article) : List Article :=
  articles.filter hasValidText

/-- The corpus text list handed to the batch encoder (screening.py:72). -/
def corpusTexts (articles : List Article) : List String :=
  (validArticles articles).map articleText

/-- In-place annotation of a no-text article (screening.py:76-78). -/
def noContentMark (a : Article) : Article :=
  { a with
    similarity := some 0
    relevance := some "Sin texto"
    excluded_reason := some "Sin contenido válido" }

/-- The no-text articles, annotated, in input order. -/
def noTextArticles (articles : List Article) : List Article :=
  (articles.filter (fun a => !(hasValidText a))).map noContentMark

/-- The screening pass/fail threshold (`THRESHOLD = 0.70`, screening.py:111). -/
def screenTHRESHOLD : ℚ := 7/10

/-- Relevance band of an accepted article (screening.py:119-124). -/
def relevanceBand (sim : ℚ) : String :=
  if 85/100 ≤ sim then "⭐ Altamente relevante"
  else if 75/100 ≤ sim then "✅ Muy relevante"
  else "📌 Relevante"

/-- Exclusion reason of a rejected article (screening.py:128). -/
def insufficientReason (sim : ℚ) : String :=
  "Relevancia insuficiente (" ++ toString (pyInt (sim * 100)) ++ "% < 70%)"

/-- Annotation of one valid article against the query embedding
(screening.py:113-129).  The similarity is the cosine of unit-normalised
embeddings (`normalize_embeddings=True` on both encode calls), which equals
the dot product; the raw value decides pass/fail, the rounded value is
stored.  Returns the annotated article and whether it passed. -/
def screenOne (q : List ℚ) (p : Article × List ℚ) : Article × Bool :=
  let sim := dot q p.2
  let a := { p.1 with
    similarity := some (round3 sim)
    text_source := some (textSource p.1) }
  if screenTHRESHOLD ≤ sim then
    ({ a with relevance := some (relevanceBand sim) }, true)
  else
    ({ a with
        relevance := some "❌ Poco relevante"
        excluded_reason := some (insufficientReason sim) }, false)

/-- Sort key for the final ranking: the stored (rounded) similarity field. -/
def simKey (a : Article) : ℚ := (a.similarity.getD 0)

/-- `relevant_articles.sort(key=..., reverse=True)` (screening.py:131):
stable descending sort on the stored similarity. -/
def sortRelevant (l : List Article) : List Article :=
  l.mergeSort (fun a b => decide (simKey b ≤ simKey a))

/-- Everything `screen_articles` produced or annotated: the returned ranked
list, the below-threshold articles annotated in place, and the no-text
articles annotated in place. -/
structure ScreenOutput where
  relevant : List Article
  excluded : List Article
  noText : List Article
deriving DecidableEq

/-- `screen_articles(articles, query_input)` (screening.py:22-154), for a
term-list query (a raw-question query is first translated externally and
then follows the identical path, which the quantification over `enc`
subsumes).  `enc` is the single-text encoder behind `get_embedding`; `encB`
is the batch encoder of screening.py:94-99, whose failure (`none`) makes
the whole call return no results (screening.py:100-102).  Branches mirror
the source: no articles, failed query embedding (before any annotation),
no valid texts, failed batch, and the main path. -/
def screenAll (enc : String → Option (List ℚ))
    (encB : List String → Option (List (List ℚ)))
    (articles : List Article) (terms : List String) : ScreenOutput :=
  if articles.isEmpty then ⟨[], [], []⟩
  else
    let queryText := pyJoin ". " terms
    match get_embedding enc queryText with
    | none => ⟨[], [], []⟩
    | some q =>
      let valid := validArticles articles
      let noTx := noTextArticles articles
      if valid.isEmpty then ⟨[], [], noTx⟩
      else
        match encB (corpusTexts articles) with
        | none => ⟨[], [], noTx⟩
        | some embs =>
          let pairs := (valid.zip embs).map (screenOne q)
          let rel := (pairs.filter (fun p => p.2)).map (fun p => p.1)
          let exc := (pairs.filter (fun p => !p.2)).map (fun p => p.1)
          ⟨sortRelevant rel, exc, noTx⟩

/-- The value returned by `screen_articles`: the ranked relevant list. -/
def screen_articles (enc : String → Option (List ℚ))
    (encB : List String → Option (List (List ℚ)))
    (articles : List Article) (terms : List String) : List Article :=
  (screenAll enc encB articles terms).relevant

/-- Strip the mutable rejection annotation, for stating that dedup moves
each input record (up to that annotation) into exactly one output list. -/
def coreOf (a : Article) : Article := { a with removal_reason := none }

/-! ## Concrete fixtures used by counterexamples and witnesses

Unit-norm rational vectors standing for embedding-model outputs, together
with the oracles that return them on the exact texts the pipeline builds. -/

/-- Unit vector for the first dedup article (`56² + 33² = 65²`). -/
def c2vA : List ℚ := [56/65, 0, 33/65]

/-- Unit vector for the second dedup article. -/
def c2vB : List ℚ := [1, 0, 0]

/-- Unit vector close to `c2vB` (`24² + 7² = 25²`). -/
def c2vC : List ℚ := [24/25, 7/25, 0]

/-- Unit vector close to `c2vB`, mirrored from `c2vC`. -/
def c2vD : List ℚ := [24/25, -7/25, 0]

/-- Embedding oracle for the semantic-dedup runs: keyed on the
`title + " " + abstract` texts of the four articles below. -/
def c2enc (s : String) : List ℚ :=
  if s = "a " then c2vA else if s = "b " then c2vB
  else if s = "c " then c2vC else if s = "d " then c2vD else []

/-- Four articles whose pairwise cosine similarities are
`sim(a,b) = 56/65 ≈ 0.862`, `sim(a,c) = sim(a,d) = 1344/1625 ≈ 0.827`,
`sim(b,c) = sim(b,d) = 24/25 = 0.96`, `sim(c,d) = 527/625 ≈ 0.843`. -/
def c2arts : List Article :=
  [mkArticle "a", mkArticle "b", mkArticle "c", mkArticle "d"]

/-- Record titled `"COVID-19 Detection"`, year 2021, no DOI. -/
def c3A : Article := { mkArticle "COVID-19 Detection" with year := some 2021 }

/-- Record titled `"covid 19 detection"`, year 2021, no DOI. -/
def c3B : Article := { mkArticle "covid 19 detection" with year := some 2021 }

/-- Screening article with a usable PDF link (similarity 4/5 below). -/
def c1aU : Article :=
  { mkArticle "u" with abstract := "ua", pdf_url := "http://x/pdf" }

/-- Screening article with no URL at all (similarity 24/25 below). -/
def c1aN : Article := { mkArticle "n" with abstract := "na" }

/-- Query encoder for the C1 scenario. -/
def c1enc (s : String) : Option (List ℚ) :=
  if s = "t" then some [1, 0] else none

/-- Batch encoder for the C1 scenario: the URL-bearing article scores
0.8, the URL-less one 0.96 against the query. -/
def c1encB (ts : List String) : Option (List (List ℚ)) :=
  if ts = ["u ua", "n na"] then some [[4/5, 3/5], [24/25, 7/25]] else none

/-- Two perfectly ordinary articles for the batch-failure run. -/
def c4a1 : Article := { mkArticle "p" with abstract := "pa" }

/-- Second article of the batch-failure run. -/
def c4a2 : Article := { mkArticle "q" with abstract := "qa" }

/-- Query encoder for the batch-failure run (succeeds). -/
def c4enc (s : String) : Option (List ℚ) :=
  if s = "t" then some [1] else none

/-- Batch encoder that raises (`none`), as in screening.py:100-102. -/
def c4encB (_ts : List String) : Option (List (List ℚ)) := none

/-- Article whose embedding points opposite to the query. -/
def c7a : Article := { mkArticle "m" with abstract := "ma" }

/-- Query encoder for the negative-similarity run. -/
def c7enc (s : String) : Option (List ℚ) :=
  if s = "t" then some [1, 0] else none

/-- Batch encoder returning the antipodal unit vector: cosine −1. -/
def c7encB (ts : List String) : Option (List (List ℚ)) :=
  if ts = ["m ma"] then some [[-1, 0]] else none

/-- Article for the bounds witness (cosine +1). -/
def c7aW : Article := { mkArticle "x" with abstract := "xa" }

/-- Query encoder for the bounds witness. -/
def c7encW (s : String) : Option (List ℚ) :=
  if s = "t" then some [1, 0] else none

/-- Batch encoder for the bounds witness. -/
def c7encBW (ts : List String) : Option (List (List ℚ)) :=
  if ts = ["x xa"] then some [[1, 0]] else none

/-- Articles dated 2018, 2020, 2021 and 2023 for the year-range filter. -/
def c9arts : List Article :=
  [{ mkArticle "p18" with year := some 2018 },
   { mkArticle "p20" with year := some 2020 },
   { mkArticle "p21" with year := some 2021 },
   { mkArticle "p23" with year := some 2023 }]

/-! ## Supporting lemmas -/

theorem dot_cons_cons (a b : ℚ) (v w : List ℚ) :
    dot (a :: v) (b :: w) = a * b + dot v w := rfl

theorem normSq_nonneg (v : List ℚ) : 0 ≤ normSq v := by
  induction v with
  | nil => simp [normSq, dot]
  | cons a v ih =>
    have h : normSq (a :: v) = a * a + normSq v := rfl
    rw [h]
    nlinarith [sq_nonneg a]

theorem dot_sq_le (v : List ℚ) : ∀ w : List ℚ, dot v w ^ 2 ≤ normSq v * normSq w := by
  induction v with
  | nil =>
    intro w
    simp [dot, normSq]
  | cons a v ih =>
    intro w
    cases w with
    | nil => simp [dot, normSq]
    | cons b w =>
      have hv : normSq (a :: v) = a * a + normSq v := rfl
      have hw : normSq (b :: w) = b * b + normSq w := rfl
      rw [dot_cons_cons, hv, hw]
      have ihw := ih w
      have hnv := normSq_nonneg v
      have hnw := normSq_nonneg w
      rcases eq_or_lt_of_le hnv with h0 | hpos
      · have hd2 : dot v w ^ 2 = 0 := by
          have h1 : dot v w ^ 2 ≤ 0 := by
            calc dot v w ^ 2 ≤ normSq v * normSq w := ihw
            _ = 0 := by rw [← h0]; ring
          exact le_antisymm h1 (sq_nonneg _)
        have hd : dot v w = 0 := by
          exact pow_eq_zero_iff (n := 2) (by norm_num) |>.mp hd2
        rw [hd, ← h0]
        nlinarith [sq_nonneg a, sq_nonneg b, sq_nonneg (a * b)]
      · have key : normSq v * ((a * a + normSq v) * (b * b + normSq w)
            - (a * b + dot v w) ^ 2)
            = (a * dot v w - b * normSq v) ^ 2
              + (a ^ 2 + normSq v) * (normSq v * normSq w - dot v w ^ 2) := by
          ring
        have hrhs : 0 ≤ (a * dot v w - b * normSq v) ^ 2
            + (a ^ 2 + normSq v) * (normSq v * normSq w - dot v w ^ 2) :=
          add_nonneg (sq_nonneg _)
            (mul_nonneg (by positivity) (sub_nonneg.mpr ihw))
        have hmul : 0 ≤ normSq v * ((a * a + normSq v) * (b * b + normSq w)
            - (a * b + dot v w) ^ 2) := key ▸ hrhs
        have := (mul_nonneg_iff_of_pos_left hpos).mp hmul
        linarith

theorem dot_bounds_of_unit {v w : List ℚ} (hv : normSq v = 1) (hw : normSq w = 1) :
    -1 ≤ dot v w ∧ dot v w ≤ 1 := by
  have h := dot_sq_le v w
  rw [hv, hw] at h
  constructor
  · nlinarith [sq_nonneg (dot v w + 1)]
  · nlinarith [sq_nonneg (dot v w - 1)]

theorem le_pyRound {m : ℤ} {x : ℚ} (h : (m : ℚ) ≤ x) : m ≤ pyRound x := by
  have hf : m ≤ ⌊x⌋ := Int.le_floor.mpr h
  simp only [pyRound]
  split_ifs <;> omega

theorem pyRound_le {m : ℤ} {x : ℚ} (h : x ≤ (m : ℚ)) : pyRound x ≤ m := by
  have hf : ⌊x⌋ ≤ m := by
    have := Int.floor_le_floor h
    simpa using this
  have hlt : ∀ hr : (1:ℚ)/2 < x - ⌊x⌋ ∨ x - ⌊x⌋ = 1/2, ⌊x⌋ + 1 ≤ m := by
    intro hr
    rcases eq_or_lt_of_le hf with he | hl
    · exfalso
      have hx : x ≤ (⌊x⌋ : ℚ) := by rw [he]; exact_mod_cast h
      rcases hr with hr | hr <;> linarith
    · omega
  simp only [pyRound]
  split_ifs with h1 h2 h3
  · exact hf
  · exact hlt (Or.inl h2)
  · exact hf
  · exact hlt (Or.inr (by linarith))

theorem round3_bounds {q : ℚ} (h1 : -1 ≤ q) (h2 : q ≤ 1) :
    -1 ≤ round3 q ∧ round3 q ≤ 1 := by
  have hlo : (-1000 : ℤ) ≤ pyRound (q * 1000) :=
    le_pyRound (by push_cast; linarith)
  have hhi : pyRound (q * 1000) ≤ (1000 : ℤ) :=
    pyRound_le (by push_cast; linarith)
  have hlo' : (-1000 : ℚ) ≤ (pyRound (q * 1000) : ℚ) := by exact_mod_cast hlo
  have hhi' : ((pyRound (q * 1000) : ℤ) : ℚ) ≤ 1000 := by exact_mod_cast hhi
  unfold round3
  constructor
  · rw [le_div_iff₀ (by norm_num)]
    linarith
  · rw [div_le_iff₀ (by norm_num)]
    linarith

theorem round3_ge_threshold {q : ℚ} (h : screenTHRESHOLD ≤ q) :
    screenTHRESHOLD ≤ round3 q := by
  have h7 : (700 : ℤ) ≤ pyRound (q * 1000) := by
    apply le_pyRound
    push_cast
    have : (7:ℚ)/10 ≤ q := h
    linarith
  have h7' : (700 : ℚ) ≤ (pyRound (q * 1000) : ℚ) := by exact_mod_cast h7
  unfold round3 screenTHRESHOLD
  rw [le_div_iff₀ (by norm_num)]
  linarith

theorem cosGT_mono {t1 t2 : ℚ} (h : t1 ≤ t2) (v w : List ℚ)
    (hgt : cosGT t2 v w = true) : cosGT t1 v w = true := by
  have hp : 0 ≤ normSq v * normSq w :=
    mul_nonneg (normSq_nonneg v) (normSq_nonneg w)
  by_cases h1 : 0 ≤ t1
  · have h2 : 0 ≤ t2 := le_trans h1 h
    simp only [cosGT, if_pos h1, if_pos h2, decide_eq_true_eq] at hgt ⊢
    obtain ⟨hd, hlt⟩ := hgt
    refine ⟨hd, lt_of_le_of_lt ?_ hlt⟩
    exact mul_le_mul_of_nonneg_right (pow_le_pow_left h1 h 2) hp
  · by_cases h2 : 0 ≤ t2
    · simp only [cosGT, if_pos h2, if_neg h1, decide_eq_true_eq] at hgt ⊢
      exact Or.inl (le_of_lt hgt.1)
    · simp only [cosGT, if_neg h1, if_neg h2, decide_eq_true_eq] at hgt ⊢
      rcases hgt with hd | hlt
      · exact Or.inl hd
      · refine Or.inr (lt_of_lt_of_le hlt ?_)
        apply mul_le_mul_of_nonneg_right _ hp
        have ht2 : 0 ≤ -t2 := by linarith
        have ht : -t2 ≤ -t1 := by linarith
        nlinarith

theorem semIsDup_mono {t1 t2 : ℚ} (h : t1 ≤ t2) (seen : List (List ℚ))
    (emb : List ℚ) (hd : semIsDup t2 seen emb = true) :
    semIsDup t1 seen emb = true := by
  rcases List.any_eq_true.mp hd with ⟨e, he, hgt⟩
  exact List.any_eq_true.mpr ⟨e, he, cosGT_mono h emb e hgt⟩

theorem removeExactAux_idem (l : List Article) : ∀ sd sty,
    removeExactAux sd sty (removeExactAux sd sty l).1
      = ((removeExactAux sd sty l).1, []) := by
  induction l with
  | nil => intro sd sty; simp [removeExactAux]
  | cons a rest ih =>
    intro sd sty
    by_cases h1 : strTruthy a.doi ∧ doiVal a.doi ∈ sd
    · simpa only [removeExactAux, if_pos h1] using ih sd sty
    · by_cases h2 : (tyKey a).1 ≠ "" ∧ tyKey a ∈ sty ∧ doiBlank a.doi
      · simpa only [removeExactAux, if_neg h1, if_pos h2] using ih sd sty
      · simp only [removeExactAux, if_neg h1, if_neg h2]
        rw [ih _ _]

theorem removeExactAux_sublist (l : List Article) : ∀ sd sty,
    ((removeExactAux sd sty l).1).Sublist l := by
  induction l with
  | nil => intro sd sty; simp [removeExactAux]
  | cons a rest ih =>
    intro sd sty
    by_cases h1 : strTruthy a.doi ∧ doiVal a.doi ∈ sd
    · simp only [removeExactAux, if_pos h1]
      exact (ih sd sty).cons a
    · by_cases h2 : (tyKey a).1 ≠ "" ∧ tyKey a ∈ sty ∧ doiBlank a.doi
      · simp only [removeExactAux, if_neg h1, if_pos h2]
        exact (ih sd sty).cons a
      · simp only [removeExactAux, if_neg h1, if_neg h2]
        exact (ih _ _).cons₂ a

theorem removeExactAux_perm (l : List Article) : ∀ sd sty,
    ((removeExactAux sd sty l).1.map coreOf
      ++ (removeExactAux sd sty l).2.map coreOf).Perm (l.map coreOf) := by
  induction l with
  | nil => intro sd sty; simp [removeExactAux]
  | cons a rest ih =>
    intro sd sty
    have hcore : ∀ r, coreOf (markRemoved r a) = coreOf a := fun r => rfl
    by_cases h1 : strTruthy a.doi ∧ doiVal a.doi ∈ sd
    · simp only [removeExactAux, if_pos h1, List.map_cons, hcore]
      exact List.Perm.trans List.perm_middle ((ih sd sty).cons _)
    · by_cases h2 : (tyKey a).1 ≠ "" ∧ tyKey a ∈ sty ∧ doiBlank a.doi
      · simp only [removeExactAux, if_neg h1, if_pos h2, List.map_cons, hcore]
        exact List.Perm.trans List.perm_middle ((ih sd sty).cons _)
      · simp only [removeExactAux, if_neg h1, if_neg h2, List.map_cons,
          List.cons_append]
        exact (ih _ _).cons _

theorem removeExactAux_reasons (l : List Article) : ∀ sd sty,
    ∀ a ∈ (removeExactAux sd sty l).2,
      ∃ s, a.removal_reason = some s ∧ s ≠ "" := by
  induction l with
  | nil => intro sd sty a ha; simp [removeExactAux] at ha
  | cons b rest ih =>
    intro sd sty a ha
    by_cases h1 : strTruthy b.doi ∧ doiVal b.doi ∈ sd
    · simp only [removeExactAux, if_pos h1, List.mem_cons] at ha
      rcases ha with ha | ha
      · exact ⟨"Duplicado Exacto (DOI)", by rw [ha]; rfl, by decide⟩
      · exact ih sd sty a ha
    · by_cases h2 : (tyKey b).1 ≠ "" ∧ tyKey b ∈ sty ∧ doiBlank b.doi
      · simp only [removeExactAux, if_neg h1, if_pos h2, List.mem_cons] at ha
        rcases ha with ha | ha
        · exact ⟨"Duplicado Exacto (Título + Año)", by rw [ha]; rfl, by decide⟩
        · exact ih sd sty a ha
      · simp only [removeExactAux, if_neg h1, if_neg h2] at ha
        exact ih _ _ a ha

theorem semReason_ne_empty (t : ℚ) : semReason t ≠ "" := by
  intro h
  have hd : (semReason t).data = [] := by rw [h]
  have hshape : (semReason t).data
      = "Duplicado Semántico (> ".data ++ ((toString t).data ++ ")".data) := rfl
  rw [hshape] at hd
  rcases List.append_eq_nil.mp hd with ⟨h1, _⟩
  exact absurd h1 (by decide)

theorem removeSemanticAux_sublist (enc : String → List ℚ) (t : ℚ)
    (l : List Article) : ∀ seen,
    ((removeSemanticAux enc t seen l).1).Sublist l := by
  induction l with
  | nil => intro seen; simp [removeSemanticAux]
  | cons a rest ih =>
    intro seen
    by_cases h1 : pyStrip (a.title ++ " " ++ a.abstract) = ""
    · simp only [removeSemanticAux, if_pos h1]
      exact (ih seen).cons₂ a
    · by_cases h2 : semIsDup t seen (enc (a.title ++ " " ++ a.abstract)) = true
      · simp only [removeSemanticAux, if_neg h1, if_pos h2]
        exact (ih seen).cons a
      · simp only [removeSemanticAux, if_neg h1, if_neg h2]
        exact (ih _).cons₂ a

theorem removeSemanticAux_perm (enc : String → List ℚ) (t : ℚ)
    (l : List Article) : ∀ seen,
    ((removeSemanticAux enc t seen l).1.map coreOf
      ++ (removeSemanticAux enc t seen l).2.map coreOf).Perm (l.map coreOf) := by
  induction l with
  | nil => intro seen; simp [removeSemanticAux]
  | cons a rest ih =>
    intro seen
    have hcore : ∀ r, coreOf (markRemoved r a) = coreOf a := fun r => rfl
    by_cases h1 : pyStrip (a.title ++ " " ++ a.abstract) = ""
    · simp only [removeSemanticAux, if_pos h1, List.map_cons, List.cons_append]
      exact (ih seen).cons _
    · by_cases h2 : semIsDup t seen (enc (a.title ++ " " ++ a.abstract)) = true
      · simp only [removeSemanticAux, if_neg h1, if_pos h2, List.map_cons, hcore]
        exact List.Perm.trans List.perm_middle ((ih seen).cons _)
      · simp only [removeSemanticAux, if_neg h1, if_neg h2, List.map_cons,
          List.cons_append]
        exact (ih _).cons _

theorem removeSemanticAux_reasons (enc : String → List ℚ) (t : ℚ)
    (l : List Article) : ∀ seen,
    ∀ a ∈ (removeSemanticAux enc t seen l).2,
      ∃ s, a.removal_reason = some s ∧ s ≠ "" := by
  induction l with
  | nil => intro seen a ha; simp [removeSemanticAux] at ha
  | cons b rest ih =>
    intro seen a ha
    by_cases h1 : pyStrip (b.title ++ " " ++ b.abstract) = ""
    · simp only [removeSemanticAux, if_pos h1] at ha
      exact ih seen a ha
    · by_cases h2 : semIsDup t seen (enc (b.title ++ " " ++ b.abstract)) = true
      · simp only [removeSemanticAux, if_neg h1, if_pos h2, List.mem_cons] at ha
        rcases ha with ha | ha
        · exact ⟨semReason t, by rw [ha]; rfl, semReason_ne_empty t⟩
        · exact ih seen a ha
      · simp only [removeSemanticAux, if_neg h1, if_neg h2] at ha
        exact ih _ a ha

theorem screenOne_snd (q : List ℚ) (p : Article × List ℚ) :
    (screenOne q p).2 = decide (screenTHRESHOLD ≤ dot q p.2) := by
  simp only [screenOne]
  split_ifs with h <;> simp [h]

theorem screenOne_sim (q : List ℚ) (p : Article × List ℚ) :
    (screenOne q p).1.similarity = some (round3 (dot q p.2)) := by
  simp only [screenOne]
  split_ifs <;> rfl

theorem noContentMark_sim (a : Article) :
    (noContentMark a).similarity = some 0 := rfl

theorem get_embedding_unit {enc : String → Option (List ℚ)}
    (hU : ∀ s v, enc s = some v → normSq v = 1) {txt : String} {q : List ℚ}
    (h : get_embedding enc txt = some q) : normSq q = 1 := by
  unfold get_embedding at h
  split_ifs at h
  exact hU _ _ h

theorem screenAll_main (enc : String → Option (List ℚ))
    (encB : List String → Option (List (List ℚ)))
    (arts : List Article) (terms : List String) (q : List ℚ)
    (embs : List (List ℚ))
    (hq : get_embedding enc (pyJoin ". " terms) = some q)
    (hb : encB (corpusTexts arts) = some embs)
    (hne : arts.isEmpty = false) (hv : (validArticles arts).isEmpty = false) :
    screenAll enc encB arts terms =
      ⟨sortRelevant (((((validArticles arts).zip embs).map
          (screenOne q)).filter (fun p => p.2)).map (fun p => p.1)),
       ((((validArticles arts).zip embs).map
          (screenOne q)).filter (fun p => !p.2)).map (fun p => p.1),
       noTextArticles arts⟩ := by
  simp only [screenAll, hne, hq, hb, hv]
  simp

theorem collectResults_errors (l : List (Except Unit (List Article)))
    (h : ∀ x ∈ l, x = Except.error ()) : collectResults l = [] := by
  induction l with
  | nil => rfl
  | cons x rest ih =>
    have hx := h x (List.mem_cons_self x rest)
    subst hx
    exact ih (fun y hy => h y (List.mem_cons_of_mem _ hy))

theorem collectResults_single (pre post : List (Except Unit (List Article)))
    (L : List Article) (hpre : ∀ x ∈ pre, x = Except.error ())
    (hpost : ∀ x ∈ post, x = Except.error ()) :
    collectResults (pre ++ Except.ok L :: post) = L := by
  induction pre with
  | nil =>
    simp only [List.nil_append, collectResults]
    rw [collectResults_errors post hpost, List.append_nil]
  | cons x rest ih =>
    have hx := hpre x (List.mem_cons_self x rest)
    subst hx
    simp only [List.cons_append, collectResults]
    exact ih (fun y hy => hpre y (List.mem_cons_of_mem _ hy))

/-! ## Claim theorems -/

/-- C1 counterexample: the screening stage of screening.py has no URL-based
selection at all.  In a run where the article with a usable PDF link scores
0.8 (above the 0.70 floor) and the article with no URL scores 0.96, the
returned set contains the no-URL article — the claim that the result
consists entirely of URL-having articles is false at this input. -/
theorem screening_url_preference_cex :
    c1aU.pdf_url ≠ ""
      ∧ c1aN.url = "" ∧ c1aN.pdf_url = ""
      ∧ screenTHRESHOLD ≤ dot [1, 0] [4/5, 3/5]
      ∧ dot [1, 0] [4/5, 3/5] < dot [1, 0] [24/25, 7/25]
      ∧ (screenOne [1, 0] (c1aN, [24/25, 7/25])).1
          ∈ screen_articles c1enc c1encB [c1aU, c1aN] ["t"]
      ∧ (screenOne [1, 0] (c1aN, [24/25, 7/25])).1.url = ""
      ∧ (screenOne [1, 0] (c1aN, [24/25, 7/25])).1.pdf_url = "" := by
  refine ⟨by decide, by decide, by decide, by decide, by decide, ?_, by decide,
    by decide⟩
  have h : screen_articles c1enc c1encB [c1aU, c1aN] ["t"]
      = sortRelevant [(screenOne [1, 0] (c1aU, [4/5, 3/5])).1,
          (screenOne [1, 0] (c1aN, [24/25, 7/25])).1] := rfl
  rw [h]
  simp [sortRelevant]

/-- C1 amended: membership in the screening result is decided solely by the
0.70 similarity threshold, with no URL/PDF partitioning: every valid-text
article whose raw similarity reaches the threshold is returned (whatever its
`url`/`pdf_url` fields), and every returned article carries a stored
similarity at or above the threshold. -/
theorem screening_threshold_membership (enc : String → Option (List ℚ))
    (encB : List String → Option (List (List ℚ)))
    (arts : List Article) (terms : List String) (q : List ℚ)
    (embs : List (List ℚ))
    (hq : get_embedding enc (pyJoin ". " terms) = some q)
    (hb : encB (corpusTexts arts) = some embs) :
    (∀ p ∈ (validArticles arts).zip embs, screenTHRESHOLD ≤ dot q p.2 →
        (screenOne q p).1 ∈ screen_articles enc encB arts terms)
      ∧ ∀ a ∈ screen_articles enc encB arts terms,
          ∃ s, a.similarity = some s ∧ screenTHRESHOLD ≤ s := by
  by_cases hA : arts.isEmpty
  · have harts : arts = [] := List.isEmpty_iff.mp hA
    subst harts
    constructor
    · intro p hp
      simp [validArticles] at hp
    · intro a ha
      simp [screen_articles, screenAll] at ha
  · by_cases hV : (validArticles arts).isEmpty
    · have hval : validArticles arts = [] := List.isEmpty_iff.mp hV
      constructor
      · intro p hp
        rw [hval] at hp
        simp at hp
      · intro a ha
        simp [screen_articles, screenAll, hA, hq, hV] at ha
    · have hne : arts.isEmpty = false := by simpa using hA
      have hve : (validArticles arts).isEmpty = false := by simpa using hV
      have hall := screenAll_main enc encB arts terms q embs hq hb hne hve
      constructor
      · intro p hp hth
        simp only [screen_articles, hall]
        simp only [sortRelevant, List.mem_mergeSort]
        refine List.mem_map.mpr ⟨screenOne q p, ?_, rfl⟩
        refine List.mem_filter.mpr ⟨List.mem_map_of_mem _ hp, ?_⟩
        rw [screenOne_snd]
        exact decide_eq_true hth
      · intro a ha
        simp only [screen_articles, hall, sortRelevant, List.mem_mergeSort] at ha
        rcases List.mem_map.mp ha with ⟨pr, hpr, hpra⟩
        have hpf := List.mem_filter.mp hpr
        rcases List.mem_map.mp hpf.1 with ⟨p, hp, hps⟩
        have hpass : screenTHRESHOLD ≤ dot q p.2 := by
          have h2 := hpf.2
          rw [← hps, screenOne_snd] at h2
          exact of_decide_eq_true h2
        refine ⟨round3 (dot q p.2), ?_, round3_ge_threshold hpass⟩
        rw [← hpra, ← hps, screenOne_sim]

/-- C1 witness: the no-URL article scoring 24/25 is returned. -/
theorem screening_threshold_membership_witness :
    (get_embedding c1enc (pyJoin ". " ["t"]) = some [1, 0]
        ∧ screenTHRESHOLD ≤ dot [1, 0] [24/25, 7/25])
      ∧ (screenOne [1, 0] (c1aN, [24/25, 7/25])).1
          ∈ screen_articles c1enc c1encB [c1aU, c1aN] ["t"] := by
  refine ⟨⟨rfl, by decide⟩, ?_⟩
  exact (screening_threshold_membership c1enc c1encB [c1aU, c1aN] ["t"]
      [1, 0] [[4/5, 3/5], [24/25, 7/25]] rfl rfl).1
    (c1aN, [24/25, 7/25]) (by decide) (by decide)

/-- C2 counterexample: end-to-end, the semantic pass is not monotone in its
threshold.  With the four unit embeddings of `c2arts` (pairwise cosines
0.862, 0.827, 0.96, 0.843), the run at threshold 0.85 removes exactly one
article (`b`, caught by `a`), while the stricter run at 0.95 keeps `b` and
then removes both `c` and `d` against it — two removals.  Raising the
threshold increased the number removed. -/
theorem semantic_dedup_monotonicity_cex :
    ((17 : ℚ)/20 ≤ 19/20)
      ∧ (remove_semantic_duplicates c2enc (17/20) c2arts).2.length = 1
      ∧ (remove_semantic_duplicates c2enc (19/20) c2arts).2.length = 2 :=
  ⟨by norm_num, by decide, by decide⟩

/-- C2 amended: the per-article duplicate test of the semantic pass is
monotone in the threshold when the comparison set of already-accepted
embeddings is held fixed — an article flagged at the stricter threshold T2
is flagged at any T1 ≤ T2.  The end-to-end removal count is not monotone,
because changing the threshold changes which earlier articles are accepted
as comparison anchors (see the counterexample). -/
theorem semantic_dup_test_monotone {t1 t2 : ℚ} (h : t1 ≤ t2)
    (seen : List (List ℚ)) (emb : List ℚ)
    (hdup : semIsDup t2 seen emb = true) : semIsDup t1 seen emb = true :=
  semIsDup_mono h seen emb hdup

/-- C2 witness: article `c` is flagged against anchor `b` at threshold
0.95, hence also at 0.85. -/
theorem semantic_dup_test_monotone_witness :
    (((17 : ℚ)/20 ≤ 19/20) ∧ semIsDup (19/20) [c2vB] c2vC = true)
      ∧ semIsDup (17/20) [c2vB] c2vC = true :=
  ⟨⟨by norm_num, by decide⟩,
    @semantic_dup_test_monotone (17/20) (19/20) (by norm_num) [c2vB] c2vC
      (by decide)⟩

/-- C3 counterexample: the exact-duplicate pass normalizes titles only by
`strip().lower()`, which keeps punctuation, so `"COVID-19 Detection"` and
`"covid 19 detection"` produce different `(title, year)` keys and neither
record is removed — they are not treated as exact duplicates there. -/
theorem title_normalization_exact_pass_cex :
    tyKey c3A ≠ tyKey c3B
      ∧ remove_exact_duplicates [c3A, c3B] = ([c3A, c3B], []) := by
  exact ⟨by decide, by decide⟩

/-- C3 amended: the casing/punctuation-insensitive fingerprint lives in the
merge step of `search_articles` (lowercased, alphanumeric-only, truncated
to 60): there the two titles map to the same key and the later record is
silently discarded, independently of year; the exact-duplicate pass of
`remove_exact_duplicates` keeps both records. -/
theorem title_fingerprint_merge_dedup :
    mergeKey c3A = mergeKey c3B
      ∧ mergeDedupSearch [c3A, c3B] = [c3A]
      ∧ remove_exact_duplicates [c3A, c3B] = ([c3A, c3B], []) := by
  exact ⟨by decide, by decide, by decide⟩

/-- C4 counterexample: when the batch encoder raises, `screen_articles`
returns the empty list (screening.py:100-102), dropping the two perfectly
embeddable articles as well — the failure is not isolated to an affected
article. -/
theorem embedding_failure_batch_cex :
    validArticles [c4a1, c4a2] = [c4a1, c4a2]
      ∧ c4encB (corpusTexts [c4a1, c4a2]) = none
      ∧ screen_articles c4enc c4encB [c4a1, c4a2] ["t"] = [] := by
  exact ⟨by decide, rfl, by decide⟩

/-- C4 amended: an embedding failure during screening is batch-wide, not
per-article: whenever the batch encoding call fails, `screen_articles`
returns no results at all.  (Per-article exclusion exists only for
articles with no usable text, which are annotated "Sin contenido válido".) -/
theorem batch_embedding_failure_empty (enc : String → Option (List ℚ))
    (encB : List String → Option (List (List ℚ)))
    (arts : List Article) (terms : List String)
    (h : encB (corpusTexts arts) = none) :
    screen_articles enc encB arts terms = [] := by
  by_cases hA : arts.isEmpty
  · simp [screen_articles, screenAll, hA]
  · rcases hge : get_embedding enc (pyJoin ". " terms) with _ | q
    · simp [screen_articles, screenAll, hA, hge]
    · by_cases hV : (validArticles arts).isEmpty
      · simp [screen_articles, screenAll, hA, hge, hV]
      · simp [screen_articles, screenAll, hA, hge, hV, h]

/-- C4 witness: the concrete failing batch from the counterexample. -/
theorem batch_embedding_failure_empty_witness :
    c4encB (corpusTexts [c4a1, c4a2]) = none
      ∧ screen_articles c4enc c4encB [c4a1, c4a2] ["t"] = [] :=
  ⟨rfl, batch_embedding_failure_empty c4enc c4encB [c4a1, c4a2] ["t"] rfl⟩

/-- C5: the exact-duplicate pass is idempotent — running it on its own kept
output keeps everything and removes nothing. -/
theorem exact_dedup_idempotent (l : List Article) :
    remove_exact_duplicates (remove_exact_duplicates l).1
      = ((remove_exact_duplicates l).1, []) :=
  removeExactAux_idem l [] []

/-- C6: exact deduplication keeps the first occurrence stably: for two
records sharing a non-empty DOI, the first in input order is kept unchanged
and the second is moved to the removed list with the DOI reason, in both
orders. -/
theorem exact_dedup_first_wins (A B : Article) (d : String)
    (hA : A.doi = some d) (hB : B.doi = some d) (hd : d ≠ "") :
    remove_exact_duplicates [A, B]
        = ([A], [markRemoved "Duplicado Exacto (DOI)" B])
      ∧ remove_exact_duplicates [B, A]
        = ([B], [markRemoved "Duplicado Exacto (DOI)" A]) := by
  have key : ∀ X Y : Article, X.doi = some d → Y.doi = some d →
      remove_exact_duplicates [X, Y]
        = ([X], [markRemoved "Duplicado Exacto (DOI)" Y]) := by
    intro X Y hX hY
    have htrX : strTruthy X.doi = true := by
      rw [hX]; simpa [strTruthy] using hd
    have htrY : strTruthy Y.doi = true := by
      rw [hY]; simpa [strTruthy] using hd
    have htrd : strTruthy (some d) = true := by simpa [strTruthy] using hd
    simp [remove_exact_duplicates, removeExactAux, htrX, htrY, htrd, hX, hY,
      doiVal]
  exact ⟨key A B hA hB, key B A hB hA⟩

/-- C6 witness: two records with DOI `10.1/x`, in both orders. -/
theorem exact_dedup_first_wins_witness :
    ("10.1/x" ≠ "")
      ∧ remove_exact_duplicates
          [{ mkArticle "A" with doi := some "10.1/x" },
           { mkArticle "B" with doi := some "10.1/x" }]
        = ([{ mkArticle "A" with doi := some "10.1/x" }],
           [markRemoved "Duplicado Exacto (DOI)"
              { mkArticle "B" with doi := some "10.1/x" }]) :=
  ⟨by decide,
    (exact_dedup_first_wins { mkArticle "A" with doi := some "10.1/x" }
      { mkArticle "B" with doi := some "10.1/x" } "10.1/x" rfl rfl
      (by decide)).1⟩

/-- C7 counterexample: cosine similarity of unit embeddings ranges over
[-1, 1], and screening stores it unclamped: with an article embedding
antipodal to the query, the excluded article is annotated with similarity
−1, outside the claimed [0, 1]. -/
theorem screening_similarity_bounds_cex :
    ((screenAll c7enc c7encB [c7a] ["t"]).excluded.map
        (fun a => a.similarity)) = [some (-1)]
      ∧ ¬(0 ≤ (-1 : ℚ)) :=
  ⟨by decide, by norm_num⟩

/-- C7 amended: after screening, every annotated similarity lies in
[-1, 1] (not [0, 1]): for any encoders returning unit-norm vectors — which
`normalize_embeddings=True` requests of the model — every article in the
returned list, the excluded list, or the no-text list has its stored
similarity between −1 and 1. -/
theorem screening_similarity_bounds (enc : String → Option (List ℚ))
    (encB : List String → Option (List (List ℚ)))
    (arts : List Article) (terms : List String)
    (hU : ∀ s v, enc s = some v → normSq v = 1)
    (hB : ∀ ts vs, encB ts = some vs → ∀ v ∈ vs, normSq v = 1) :
    ∀ a : Article,
      (a ∈ (screenAll enc encB arts terms).relevant
        ∨ a ∈ (screenAll enc encB arts terms).excluded
        ∨ a ∈ (screenAll enc encB arts terms).noText) →
      ∀ s, a.similarity = some s → -1 ≤ s ∧ s ≤ 1 := by
  intro a ha s hs
  have hzero : a ∈ noTextArticles arts → (-1 ≤ s ∧ s ≤ 1) := by
    intro hmem
    rcases List.mem_map.mp hmem with ⟨b, _, hb⟩
    rw [← hb, noContentMark_sim] at hs
    have hs0 : s = 0 := by injection hs with h; exact h.symm
    rw [hs0]
    norm_num
  by_cases hA : arts.isEmpty
  · have h0 : screenAll enc encB arts terms = ⟨[], [], []⟩ := by
      simp [screenAll, hA]
    rw [h0] at ha
    simp at ha
  · rcases hge : get_embedding enc (pyJoin ". " terms) with _ | q
    · have h0 : screenAll enc encB arts terms = ⟨[], [], []⟩ := by
        simp [screenAll, hA, hge]
      rw [h0] at ha
      simp at ha
    · have hq1 : normSq q = 1 := get_embedding_unit hU hge
      by_cases hV : (validArticles arts).isEmpty
      · have h0 : screenAll enc encB arts terms = ⟨[], [], noTextArticles arts⟩ := by
          simp [screenAll, hA, hge, hV]
        rw [h0] at ha
        simp only [List.not_mem_nil, false_or] at ha
        exact hzero ha
      · rcases henc : encB (corpusTexts arts) with _ | embs
        · have h0 : screenAll enc encB arts terms
              = ⟨[], [], noTextArticles arts⟩ := by
            simp [screenAll, hA, hge, hV, henc]
          rw [h0] at ha
          simp only [List.not_mem_nil, false_or] at ha
          exact hzero ha
        · have hne : arts.isEmpty = false := by simpa using hA
          have hve : (validArticles arts).isEmpty = false := by simpa using hV
          have hall := screenAll_main enc encB arts terms q embs hge henc hne hve
          rw [hall] at ha
          have hpair : ∀ p ∈ (validArticles arts).zip embs,
              (screenOne q p).1.similarity = some s → -1 ≤ s ∧ s ≤ 1 := by
            intro p hp hsim
            have hv1 : normSq p.2 = 1 := hB _ _ henc p.2 (List.of_mem_zip hp).2
            have hd := dot_bounds_of_unit hq1 hv1
            rw [screenOne_sim] at hsim
            have hsr : s = round3 (dot q p.2) := by
              injection hsim with h
              exact h.symm
            rw [hsr]
            exact round3_bounds hd.1 hd.2
          rcases ha with ha | ha | ha
          · simp only [sortRelevant, List.mem_mergeSort] at ha
            rcases List.mem_map.mp ha with ⟨pr, hpr, hpra⟩
            rcases List.mem_map.mp (List.mem_filter.mp hpr).1 with ⟨p, hp, hps⟩
            refine hpair p hp ?_
            rw [hps, hpra]
            exact hs
          · rcases List.mem_map.mp ha with ⟨pr, hpr, hpra⟩
            rcases List.mem_map.mp (List.mem_filter.mp hpr).1 with ⟨p, hp, hps⟩
            refine hpair p hp ?_
            rw [hps, hpra]
            exact hs
          · exact hzero ha

/-- C7 witness: a returned article with cosine +1 against the query, whose
stored similarity 1 the amended bound covers. -/
theorem screening_similarity_bounds_witness :
    ((screenOne [1, 0] (c7aW, [1, 0])).1.similarity = some 1)
      ∧ (-1 ≤ (1 : ℚ) ∧ (1 : ℚ) ≤ 1) := by
  have hU : ∀ s v, c7encW s = some v → normSq v = 1 := by
    intro s v hv
    unfold c7encW at hv
    split_ifs at hv
    injection hv with h
    rw [← h]
    decide
  have hB : ∀ ts vs, c7encBW ts = some vs → ∀ v ∈ vs, normSq v = 1 := by
    intro ts vs hv v hvm
    unfold c7encBW at hv
    split_ifs at hv
    injection hv with h
    rw [← h] at hvm
    have hv10 : v = [1, 0] := by simpa using hvm
    rw [hv10]
    decide
  have hmem : (screenOne [1, 0] (c7aW, [1, 0])).1
      ∈ (screenAll c7encW c7encBW [c7aW] ["t"]).relevant := by
    have h : (screenAll c7encW c7encBW [c7aW] ["t"]).relevant
        = sortRelevant [(screenOne [1, 0] (c7aW, [1, 0])).1] := rfl
    rw [h]
    simp [sortRelevant]
  refine ⟨by decide, ?_⟩
  exact screening_similarity_bounds c7encW c7encBW [c7aW] ["t"] hU hB
    (screenOne [1, 0] (c7aW, [1, 0])).1 (Or.inl hmem) 1 (by decide)

/-- C8: partial source failure never aborts the search.  When every adapter
future except one raises or times out (`.error`, caught per-future at
search_engine.py:289-293), `search_articles` — a total function here, so no
exception escapes — returns exactly what it would return from the surviving
adapter alone: that adapter's results, identity-merged, capped, and
enriched. -/
theorem search_partial_failure_survives (fetched : Article → Option String)
    (maxResults : Nat) (L : List Article)
    (pre post : List (Except Unit (List Article)))
    (hpre : ∀ x ∈ pre, x = Except.error ())
    (hpost : ∀ x ∈ post, x = Except.error ()) :
    search_articles fetched maxResults (pre ++ Except.ok L :: post)
      = search_articles fetched maxResults [Except.ok L] := by
  unfold search_articles
  rw [collectResults_single pre post L hpre hpost]
  have hone : collectResults [Except.ok L] = L := by
    simp [collectResults]
  rw [hone]

/-- C8 witness: two of three adapters fail, the middle one survives. -/
theorem search_partial_failure_survives_witness :
    ((∀ x ∈ [(Except.error () : Except Unit (List Article))],
        x = Except.error ())
      ∧ search_articles (fun _ => none) 500
          [Except.error (), Except.ok [mkArticle "w"], Except.error ()]
        = search_articles (fun _ => none) 500 [Except.ok [mkArticle "w"]]) := by
  refine ⟨fun x hx => by simpa using hx, ?_⟩
  exact search_partial_failure_survives (fun _ => none) 500 [mkArticle "w"]
    [Except.error ()] [Except.error ()]
    (fun x hx => by simpa using hx) (fun x hx => by simpa using hx)

/-- C9: the year-range criteria of `apply_filters` compose as a conjunction:
with `start_year=2020`, `end_year=2022` and all other criteria absent, the
kept set is exactly the articles with `2020 ≤ year ≤ 2022` (a missing year
counts as 0); on records dated 2018, 2020, 2021, 2023 exactly the 2020 and
2021 records survive. -/
theorem apply_filters_year_range :
    (∀ l : List Article,
        apply_filters l (some 2020) (some 2022) none false none none none
          = l.filter (fun a => decide (2020 ≤ yearOr0 a ∧ yearOr0 a ≤ 2022)))
      ∧ apply_filters c9arts (some 2020) (some 2022) none false none none none
          = [{ mkArticle "p20" with year := some 2020 },
             { mkArticle "p21" with year := some 2021 }] := by
  constructor
  · intro l
    simp only [apply_filters, intTruthy, Option.getD]
    norm_num
    refine List.filter_congr fun a _ => ?_
    by_cases h1 : 2020 ≤ yearOr0 a <;> by_cases h2 : yearOr0 a ≤ 2022 <;>
      simp [h1, h2]
  · decide

/-- C10: both dedup passes partition their input: the kept list is a
sublist of the input (order-preserving, entries unmodified), kept and
removed together are — up to the removal annotation — a permutation of the
input, and every removed entry carries a non-empty removal reason. -/
theorem dedup_partition (l : List Article) (enc : String → List ℚ) (t : ℚ) :
    (((remove_exact_duplicates l).1).Sublist l
      ∧ ((remove_exact_duplicates l).1.map coreOf
          ++ (remove_exact_duplicates l).2.map coreOf).Perm (l.map coreOf)
      ∧ ∀ a ∈ (remove_exact_duplicates l).2,
          ∃ s, a.removal_reason = some s ∧ s ≠ "")
    ∧ (((remove_semantic_duplicates enc t l).1).Sublist l
      ∧ ((remove_semantic_duplicates enc t l).1.map coreOf
          ++ (remove_semantic_duplicates enc t l).2.map coreOf).Perm
            (l.map coreOf)
      ∧ ∀ a ∈ (remove_semantic_duplicates enc t l).2,
          ∃ s, a.removal_reason = some s ∧ s ≠ "") :=
  ⟨⟨removeExactAux_sublist l [] [], removeExactAux_perm l [] [],
    removeExactAux_reasons l [] []⟩,
   ⟨removeSemanticAux_sublist enc t l [], removeSemanticAux_perm enc t l [],
    removeSemanticAux_reasons enc t l []⟩⟩
